import Mathlib

/-!
Verification of the tiered layout and draw.io document generation engine
(`DiagramGenerator` in `create_diagram.py`).

The Python code is shallowly embedded: the input graph becomes the `Data`
structure (optional collections mirror `dict.get` with a default), the
mutable instance state (`cell_id_counter`, `node_id_map`, the growing XML
`root` element) becomes the explicit `LoopSt` record threaded through the
layout and edge loops, and the `KeyError` raised by `node['label']` on a
node without a label becomes `Option` failure.
-/

/-- A graph node, mirroring the dicts consumed by `generate_xml_string`.
`label` is `Option` because the Python reads `node['label']`, which raises
`KeyError` when the key is absent; `id` and `type` are read the same way but
no claim concerns their absence, so they are kept as plain fields. -/
structure Node where
  id : String
  label : Option String
  type : String
deriving DecidableEq

/-- A graph edge. `label` is `Option` because the Python reads
`edge.get('label', '')`, tolerating absence. -/
structure Edge where
  source : String
  target : String
  label : Option String
deriving DecidableEq

/-- The input value: `data.get('nodes', [])` / `data.get('edges', [])` mean
each collection may be absent, defaulting to empty. -/
structure Data where
  nodes : Option (List Node)
  edges : Option (List Edge)
deriving DecidableEq

/-- One `mxCell` element of the generated document.
`root0` is `<mxCell id="0"/>`, `canvas` is `<mxCell id="1" parent="0"/>`;
`shape` carries the geometry of `_create_node`, `connector` the
source/target pair of `_create_edge`. -/
inductive Cell where
  | root0 : Cell
  | canvas : Cell
  | shape (id : Nat) (value : String) (x y : Int) (width height : Nat) : Cell
  | connector (id : Nat) (value : String) (source target : Nat) : Cell
deriving DecidableEq

def Cell.isShape : Cell → Bool
  | .shape _ _ _ _ _ _ => true
  | _ => false

def Cell.isConnector : Cell → Bool
  | .connector _ _ _ _ => true
  | _ => false

/-- The document identifier of a cell (`id="0"`, `id="1"`, or the counter
value stamped on a shape/connector). -/
def Cell.docId : Cell → Nat
  | .root0 => 0
  | .canvas => 1
  | .shape i _ _ _ _ _ => i
  | .connector i _ _ _ => i

/-- The `value` attribute of a connector cell. -/
def Cell.connValue : Cell → String
  | .connector _ v _ _ => v
  | _ => ""

/-- The `tiers` dict: category string to tier, `None` when absent. -/
def tiers (t : String) : Option Nat :=
  if t = "user" then some 0
  else if t = "generic_client" then some 0
  else if t = "aws.network.route53" then some 1
  else if t = "aws.network.elb_application_load_balancer" then some 2
  else if t = "aws.compute.ec2_auto_scaling" then some 3
  else if t = "aws.database.rds_postgresql_instance" then some 4
  else if t = "aws.storage.s3" then some 4
  else none

/-- `tiers.get(node['type'], 3)`: the tier of a node, default 3. -/
def tierOf (n : Node) : Nat := (tiers n.type).getD 3

/-- `nodes_in_tier[i]`: the nodes of tier `i` in input order (the Python
builds these lists by appending during one pass over `data['nodes']`, which
is a stable partition). -/
def tierNodes (nodes : List Node) (i : Nat) : List Node :=
  nodes.filter (fun n => tierOf n = i)

/-- `x_pos = 600 - (tier_width / 2)` with `tier_width = tier_count * 180`. -/
def rowStartX (k : Nat) : Int := 600 - (k * 180 : Int) / 2

/-- The mutable state of `generate_xml_string` while it runs: the instance
counter `self.cell_id_counter`, the local `node_id_map` (most recent binding
first, mirroring dict overwrite), and the children of the `root` element in
document order. -/
structure LoopSt where
  counter : Nat
  map : List (String × Nat)
  cells : List Cell
deriving DecidableEq

/-- First-match association lookup; on the most-recent-first `map` this is
exactly Python's `node_id_map.get`. -/
def mlookup : List (String × Nat) → String → Option Nat
  | [], _ => none
  | (k, v) :: rest, q => if k = q then some v else mlookup rest q

/-- The inner loop `for node in nodes_in_tier[i]`: allocate a counter value,
record it in `node_id_map`, append the shape cell (`node['label']` raising
`KeyError` on a missing label is `none`), advance `x_pos` by 180. -/
def placeRow : List Node → Int → Int → LoopSt → Option LoopSt
  | [], _, _, st => some st
  | n :: rest, x, y, st =>
    match n.label with
    | none => none
    | some lab =>
      placeRow rest (x + 180) y
        ⟨st.counter + 1, (n.id, st.counter) :: st.map,
         st.cells ++ [Cell.shape st.counter lab x y 120 80]⟩

/-- The outer loop `for i in range(5)`: skip empty tiers (`continue`
before `y_pos` advances), otherwise place the row centred on 600 and then
advance `y_pos` by 140. -/
def layoutTiers (nodes : List Node) : List Nat → Int → LoopSt → Option LoopSt
  | [], _, st => some st
  | i :: rest, y, st =>
    if (tierNodes nodes i).length = 0 then layoutTiers nodes rest y st
    else
      match placeRow (tierNodes nodes i) (rowStartX (tierNodes nodes i).length) y st with
      | none => none
      | some st2 => layoutTiers nodes rest (y + 140) st2

/-- The edge loop body: `node_id_map.get` on both endpoints, then
`if source_cell_id and target_cell_id` (Python truthiness: `None` and `0`
are both falsy), then `_create_edge` appends a connector cell stamped with
the shared counter. -/
def addEdge (st : LoopSt) (e : Edge) : LoopSt :=
  match mlookup st.map e.source, mlookup st.map e.target with
  | some s, some t =>
    if s ≠ 0 ∧ t ≠ 0 then
      ⟨st.counter + 1, st.map,
       st.cells ++ [Cell.connector st.counter (e.label.getD "") s t]⟩
    else st
  | _, _ => st

/-- The body of `generate_xml_string` up to serialization: reset the counter
to 2, create the two reserved cells, run the tier layout, then the edge
loop; the result is the children of `root` plus the final counter, `none`
when a `KeyError` escaped (missing node label). -/
def generateCells (data : Data) : Option (List Cell × Nat) :=
  match layoutTiers (data.nodes.getD []) [0, 1, 2, 3, 4] 40
      ⟨2, [], [Cell.root0, Cell.canvas]⟩ with
  | none => none
  | some st1 =>
    let st2 := (data.edges.getD []).foldl addEdge st1
    some (st2.cells, st2.counter)

def nodeStyle : String := "rounded=1;whiteSpace=wrap;html=1;arcSize=12;"

def edgeStyle : String :=
  "edgeStyle=orthogonalEdgeStyle;rounded=0;orthogonalLoop=1;jettySize=auto;html=1;endArrow=classic;endFill=1;"

/-- The serialized form of one `mxCell`, modelling the deterministic
pretty-printed output of `ET.tostring` + `minidom.toprettyxml`. -/
def cellText : Cell → String
  | .root0 => "        <mxCell id=\"0\"/>\n"
  | .canvas => "        <mxCell id=\"1\" parent=\"0\"/>\n"
  | .shape i v x y w h =>
    "        <mxCell id=\"" ++ toString i ++ "\" value=\"" ++ v ++
      "\" style=\"" ++ nodeStyle ++ "\" parent=\"1\" vertex=\"1\">\n" ++
      "          <mxGeometry x=\"" ++ toString x ++ "\" y=\"" ++ toString y ++
      "\" width=\"" ++ toString w ++ "\" height=\"" ++ toString h ++
      "\" as=\"geometry\"/>\n        </mxCell>\n"
  | .connector i v s t =>
    "        <mxCell id=\"" ++ toString i ++ "\" value=\"" ++ v ++
      "\" style=\"" ++ edgeStyle ++ "\" parent=\"1\" edge=\"1\" source=\"" ++
      toString s ++ "\" target=\"" ++ toString t ++ "\">\n" ++
      "          <mxGeometry relative=\"1\" as=\"geometry\"/>\n        </mxCell>\n"

def documentHeader : String :=
  "<?xml version=\"1.0\" ?>\n<mxfile host=\"app.diagrams.net\" agent=\"doodle-ai\">\n" ++
  "  <diagram id=\"diagram-1\" name=\"Page-1\">\n" ++
  "    <mxGraphModel dx=\"1400\" dy=\"800\" grid=\"1\" gridSize=\"10\" guides=\"1\" tooltips=\"1\" connect=\"1\" arrows=\"1\">\n" ++
  "      <root>\n"

def documentFooter : String :=
  "      </root>\n    </mxGraphModel>\n  </diagram>\n</mxfile>\n"

/-- The full pretty-printed document text. -/
def serializeDocument (cs : List Cell) : String :=
  documentHeader ++ String.join (cs.map cellText) ++ documentFooter

/-- `generate_xml_string(self, data)`. The first argument is the instance
state `self.cell_id_counter` on entry; the method begins with
`self.cell_id_counter = 2`, so that incoming state is discarded. Returns
the document text together with the counter the instance is left with. -/
def generate_xml_string (_counter0 : Nat) (data : Data) : Option (String × Nat) :=
  match generateCells data with
  | none => none
  | some (cs, c) => some (serializeDocument cs, c)

/-! ## Closed forms for the loop state

The imperative loops are characterized by explicit list-valued functions;
the lemmas below prove the loop bodies equal to them. -/

/-- The shape cells one row of `k` nodes produces: counter values `c`,
`c+1`, …, x advancing by 180 from `x`. -/
def rowCells : List Node → Nat → Int → Int → List Cell
  | [], _, _, _ => []
  | n :: rest, c, x, y =>
    Cell.shape c (n.label.getD "") x y 120 80 :: rowCells rest (c + 1) (x + 180) y

/-- The `node_id_map` entries one row adds, most recent first. -/
def rowMap : List Node → Nat → List (String × Nat)
  | [], _ => []
  | n :: rest, c => rowMap rest (c + 1) ++ [(n.id, c)]

/-- Whether every node of the list carries a label (so that `node['label']`
never raises). -/
def labelsOk (nodes : List Node) : Bool := nodes.all (fun n => n.label.isSome)

/-- The shape cells the whole tier loop produces, starting at counter `c`
and row ordinate `y`. -/
def rowsFor (nodes : List Node) : List Nat → Nat → Int → List Cell
  | [], _, _ => []
  | i :: rest, c, y =>
    if (tierNodes nodes i).length = 0 then rowsFor nodes rest c y
    else
      rowCells (tierNodes nodes i) c (rowStartX (tierNodes nodes i).length) y ++
        rowsFor nodes rest (c + (tierNodes nodes i).length) (y + 140)

/-- The `node_id_map` contents after the whole tier loop, most recent
binding first. -/
def mapFor (nodes : List Node) : List Nat → Nat → List (String × Nat)
  | [], _ => []
  | i :: rest, c =>
    mapFor nodes rest (c + (tierNodes nodes i).length) ++ rowMap (tierNodes nodes i) c

/-- The total number of nodes the listed tiers hold. -/
def totalFor (nodes : List Node) : List Nat → Nat
  | [] => 0
  | i :: rest => (tierNodes nodes i).length + totalFor nodes rest

/-- The connector cells the edge loop produces from map `m` starting at
counter `c`. -/
def edgeCellsF (m : List (String × Nat)) : List Edge → Nat → List Cell
  | [], _ => []
  | e :: rest, c =>
    match mlookup m e.source, mlookup m e.target with
    | some s, some t =>
      if s ≠ 0 ∧ t ≠ 0 then
        Cell.connector c (e.label.getD "") s t :: edgeCellsF m rest (c + 1)
      else edgeCellsF m rest c
    | _, _ => edgeCellsF m rest c

theorem placeRow_eq (ns : List Node) (x y : Int) (st : LoopSt) :
    placeRow ns x y st =
      if labelsOk ns then
        some ⟨st.counter + ns.length, rowMap ns st.counter ++ st.map,
              st.cells ++ rowCells ns st.counter x y⟩
      else none := by
  induction ns generalizing x st with
  | nil => simp [placeRow, labelsOk, rowMap, rowCells]
  | cons n rest ih =>
    cases hl : n.label with
    | none => simp [placeRow, hl, labelsOk]
    | some lab =>
      simp only [placeRow, hl, ih, labelsOk, List.all_cons, Option.isSome_some,
        Bool.true_and]
      by_cases h : rest.all (fun n => n.label.isSome)
      · rw [if_pos h, if_pos h]
        simp only [Option.some.injEq, LoopSt.mk.injEq, rowMap, rowCells,
          List.length_cons, List.append_assoc, List.singleton_append,
          Option.getD_some]
        refine ⟨by omega, ?_⟩
        simp [hl]
      · rw [if_neg h, if_neg h]

theorem layoutTiers_eq (nodes : List Node) (tl : List Nat) (y : Int) (st : LoopSt) :
    layoutTiers nodes tl y st =
      if tl.all (fun i => labelsOk (tierNodes nodes i)) then
        some ⟨st.counter + totalFor nodes tl, mapFor nodes tl st.counter ++ st.map,
              st.cells ++ rowsFor nodes tl st.counter y⟩
      else none := by
  induction tl generalizing y st with
  | nil => simp [layoutTiers, totalFor, mapFor, rowsFor]
  | cons i rest ih =>
    by_cases h0 : (tierNodes nodes i).length = 0
    · have hnil : tierNodes nodes i = [] := List.length_eq_zero.mp h0
      rw [layoutTiers.eq_def]
      simp only [if_pos h0, ih, totalFor, mapFor, rowsFor, h0, if_pos, hnil,
        rowMap, labelsOk, List.all_nil, List.all_cons, List.append_nil,
        List.length_nil, Nat.add_zero, Nat.zero_add, Bool.true_and, if_true]
    · rw [layoutTiers.eq_def]
      simp only [if_neg h0, placeRow_eq, List.all_cons]
      by_cases hl : labelsOk (tierNodes nodes i)
      · rw [if_pos hl]
        simp only [ih, hl, Bool.true_and]
        by_cases hrest : rest.all (fun i => labelsOk (tierNodes nodes i))
        · rw [if_pos hrest, if_pos hrest]
          simp only [totalFor, mapFor, rowsFor, h0, if_neg h0,
            Option.some.injEq, LoopSt.mk.injEq, List.append_assoc]
          refine ⟨by omega, ?_⟩
          simp
        · rw [if_neg hrest, if_neg hrest]
      · rw [if_neg hl]
        have : ¬(labelsOk (tierNodes nodes i) && rest.all (fun i => labelsOk (tierNodes nodes i))) = true := by
          simp [hl]
        rw [if_neg this]

theorem foldl_addEdge_eq (es : List Edge) (st : LoopSt) :
    es.foldl addEdge st =
      ⟨st.counter + (edgeCellsF st.map es st.counter).length, st.map,
       st.cells ++ edgeCellsF st.map es st.counter⟩ := by
  induction es generalizing st with
  | nil => simp [edgeCellsF]
  | cons e rest ih =>
    simp only [List.foldl_cons, addEdge, edgeCellsF]
    cases hs : mlookup st.map e.source with
    | none => simpa using ih st
    | some s =>
      cases ht : mlookup st.map e.target with
      | none => simpa using ih st
      | some t =>
        dsimp only
        by_cases hz : s ≠ 0 ∧ t ≠ 0
        · rw [if_pos hz, if_pos hz, ih]
          simp only [LoopSt.mk.injEq, List.length_cons, List.append_assoc,
            List.singleton_append]
          exact ⟨by omega, trivial, trivial⟩
        · rw [if_neg hz, if_neg hz]
          simpa using ih st

theorem tierOf_lt (n : Node) : tierOf n < 5 := by
  unfold tierOf tiers
  repeat' split
  all_goals decide

theorem all_tiers_labelsOk (nodes : List Node) :
    ([0, 1, 2, 3, 4].all fun i => labelsOk (tierNodes nodes i)) = labelsOk nodes := by
  rw [Bool.eq_iff_iff]
  simp only [List.all_eq_true, labelsOk, tierNodes, List.mem_filter,
    decide_eq_true_eq, and_imp]
  constructor
  · intro h n hn
    refine h (tierOf n) ?_ n hn rfl
    have := tierOf_lt n
    simp only [List.mem_cons, List.not_mem_nil, or_false]
    omega
  · intro h i _ n hn _
    exact h n hn

/-- The node list actually consumed: `data.get('nodes', [])`. -/
def theNodes (data : Data) : List Node := data.nodes.getD []

/-- The edge list actually consumed: `data.get('edges', [])`. -/
def theEdges (data : Data) : List Edge := data.edges.getD []

/-- The number of shape cells the layout loop emits. -/
def nodeCount (data : Data) : Nat := totalFor (theNodes data) [0, 1, 2, 3, 4]

/-- The shape cells the layout loop emits, in document order. -/
def finalRows (data : Data) : List Cell := rowsFor (theNodes data) [0, 1, 2, 3, 4] 2 40

/-- The contents of `node_id_map` when the edge loop runs. -/
def finalMap (data : Data) : List (String × Nat) := mapFor (theNodes data) [0, 1, 2, 3, 4] 2

/-- The connector cells the edge loop emits, in document order. -/
def econns (data : Data) : List Cell :=
  edgeCellsF (finalMap data) (theEdges data) (2 + nodeCount data)

/-- The whole `root` element's children in document order. -/
def closedCells (data : Data) : List Cell :=
  Cell.root0 :: Cell.canvas :: (finalRows data ++ econns data)

/-- Master characterization: `generate_xml_string` succeeds exactly when
every consumed node carries a label, and then produces exactly the closed
form cells with the counter left just past the last allocation. -/
theorem generateCells_eq (data : Data) :
    generateCells data =
      if labelsOk (theNodes data) then
        some (closedCells data, 2 + nodeCount data + (econns data).length)
      else none := by
  unfold generateCells
  simp only [theNodes, theEdges, nodeCount, finalRows, finalMap, econns,
    closedCells, theNodes] at *
  rw [layoutTiers_eq, all_tiers_labelsOk]
  by_cases h : labelsOk (data.nodes.getD [])
  · rw [if_pos h, if_pos h]
    dsimp only
    rw [foldl_addEdge_eq]
    simp only [List.append_nil, Prod.mk.injEq, Option.some.injEq]
    constructor <;> simp [List.append_assoc]
  · rw [if_neg h, if_neg h]

/-! ## Facts about the emitted shape rows -/

/-- The document identifiers of the shape elements of a document. -/
def shapeIds (cs : List Cell) : List Nat := (cs.filter Cell.isShape).map Cell.docId

theorem rowCells_length (ns : List Node) (c : Nat) (x y : Int) :
    (rowCells ns c x y).length = ns.length := by
  induction ns generalizing c x with
  | nil => simp [rowCells]
  | cons n rest ih => simp [rowCells, ih]

theorem rowCells_shapes (ns : List Node) (c : Nat) (x y : Int) :
    ∀ cell ∈ rowCells ns c x y, cell.isShape = true := by
  induction ns generalizing c x with
  | nil => simp [rowCells]
  | cons n rest ih =>
    intro cell hc
    rcases List.mem_cons.mp hc with h | h
    · subst h; rfl
    · exact ih _ _ cell h

theorem rowCells_ids (ns : List Node) (c : Nat) (x y : Int) :
    (rowCells ns c x y).map Cell.docId = List.range' c ns.length := by
  induction ns generalizing c x with
  | nil => simp [rowCells]
  | cons n rest ih =>
    simp [rowCells, Cell.docId, ih, List.range'_succ]

theorem rowCells_mem (ns : List Node) (c : Nat) (x y : Int) (j : Nat) (n : Node)
    (hj : ns[j]? = some n) :
    Cell.shape (c + j) (n.label.getD "") (x + j * 180) y 120 80 ∈ rowCells ns c x y := by
  induction ns generalizing c x j with
  | nil => simp at hj
  | cons m rest ih =>
    cases j with
    | zero =>
      simp only [List.getElem?_cons_zero, Option.some.injEq] at hj
      subst hj
      simp [rowCells]
    | succ j =>
      simp only [List.getElem?_cons_succ] at hj
      have := ih (c + 1) (x + 180) j hj
      refine List.mem_cons.mpr (Or.inr ?_)
      have harith : c + 1 + j = c + (j + 1) := by omega
      have harith2 : x + 180 + j * 180 = x + (j + 1) * 180 := by ring
      rwa [harith, harith2] at this

theorem rowsFor_length (nodes : List Node) (tl : List Nat) (c : Nat) (y : Int) :
    (rowsFor nodes tl c y).length = totalFor nodes tl := by
  induction tl generalizing c y with
  | nil => simp [rowsFor, totalFor]
  | cons i rest ih =>
    by_cases h0 : (tierNodes nodes i).length = 0
    · simp [rowsFor, totalFor, h0, ih]
    · simp [rowsFor, totalFor, h0, ih, rowCells_length, Nat.add_comm]

theorem rowsFor_shapes (nodes : List Node) (tl : List Nat) (c : Nat) (y : Int) :
    ∀ cell ∈ rowsFor nodes tl c y, cell.isShape = true := by
  induction tl generalizing c y with
  | nil => simp [rowsFor]
  | cons i rest ih =>
    by_cases h0 : (tierNodes nodes i).length = 0
    · simpa [rowsFor, h0] using ih c y
    · intro cell hc
      rw [rowsFor.eq_def] at hc
      simp only [if_neg h0] at hc
      rcases List.mem_append.mp hc with h | h
      · exact rowCells_shapes _ _ _ _ cell h
      · exact ih _ _ cell h

theorem rowsFor_ids (nodes : List Node) (tl : List Nat) (c : Nat) (y : Int) :
    (rowsFor nodes tl c y).map Cell.docId = List.range' c (totalFor nodes tl) := by
  induction tl generalizing c y with
  | nil => simp [rowsFor, totalFor]
  | cons i rest ih =>
    by_cases h0 : (tierNodes nodes i).length = 0
    · simp [rowsFor, totalFor, h0, ih]
    · simp only [rowsFor, totalFor, if_neg h0, List.map_append, rowCells_ids, ih]
      rw [Nat.add_comm ((tierNodes nodes i).length) (totalFor nodes rest)]
      exact List.range'_append_1 c (tierNodes nodes i).length (totalFor nodes rest)

/-- Every node lands in exactly one of the five tier buckets. -/
theorem totalFor_allTiers (nodes : List Node) :
    totalFor nodes [0, 1, 2, 3, 4] = nodes.length := by
  induction nodes with
  | nil => simp [totalFor, tierNodes]
  | cons n rest ih =>
    have h5 := tierOf_lt n
    simp only [totalFor, tierNodes, List.filter_cons] at *
    have hcase : tierOf n = 0 ∨ tierOf n = 1 ∨ tierOf n = 2 ∨ tierOf n = 3 ∨ tierOf n = 4 := by
      omega
    rcases hcase with h | h | h | h | h <;> simp [h] <;> omega

/-! ## The node-id-to-document-identifier mapping -/

/-- The index of the last element of the list whose id is `q` (a Python
dict written in a loop keeps the latest binding). -/
def lastIdx : List Node → String → Option Nat
  | [], _ => none
  | n :: rest, q =>
    match lastIdx rest q with
    | some j => some (j + 1)
    | none => if n.id = q then some 0 else none

/-- The order in which the layout loop places nodes: tier by tier, input
order within each tier. -/
def ordFor (nodes : List Node) : List Nat → List Node
  | [] => []
  | i :: rest => tierNodes nodes i ++ ordFor nodes rest

/-- The placement order of all nodes of the input. -/
def placementOrder (data : Data) : List Node := ordFor (theNodes data) [0, 1, 2, 3, 4]

theorem mlookup_append (a b : List (String × Nat)) (q : String) :
    mlookup (a ++ b) q =
      match mlookup a q with
      | some v => some v
      | none => mlookup b q := by
  induction a with
  | nil => simp [mlookup]
  | cons p rest ih =>
    obtain ⟨k, v⟩ := p
    by_cases hk : k = q
    · simp [mlookup, hk]
    · simp [mlookup, hk, ih]

theorem rowMap_mlookup (ns : List Node) (c : Nat) (q : String) :
    mlookup (rowMap ns c) q = (lastIdx ns q).map (fun j => c + j) := by
  induction ns generalizing c with
  | nil => simp [rowMap, lastIdx, mlookup]
  | cons n rest ih =>
    rw [rowMap.eq_def]
    dsimp only
    rw [mlookup_append, ih]
    cases h : lastIdx rest q with
    | some j =>
      rw [lastIdx.eq_def]
      dsimp only
      rw [h]
      simp only [Option.map_some]
      have : c + 1 + j = c + (j + 1) := by omega
      simp [this]
    | none =>
      rw [lastIdx.eq_def]
      dsimp only
      rw [h]
      by_cases hn : n.id = q
      · simp [mlookup, hn]
      · simp [mlookup, hn]

theorem lastIdx_append (a b : List Node) (q : String) :
    lastIdx (a ++ b) q =
      match lastIdx b q with
      | some j => some (a.length + j)
      | none => lastIdx a q := by
  induction a with
  | nil => cases h : lastIdx b q <;> simp [lastIdx, h]
  | cons n rest ih =>
    rw [List.cons_append, lastIdx.eq_def]
    dsimp only
    rw [ih]
    cases h : lastIdx b q with
    | some j =>
      simp only [List.length_cons, Option.some.injEq]
      omega
    | none => rfl

theorem mapFor_mlookup (nodes : List Node) (tl : List Nat) (c : Nat) (q : String) :
    mlookup (mapFor nodes tl c) q = (lastIdx (ordFor nodes tl) q).map (fun j => c + j) := by
  induction tl generalizing c with
  | nil => simp [mapFor, ordFor, lastIdx, mlookup]
  | cons i rest ih =>
    rw [mapFor.eq_def]
    dsimp only
    rw [mlookup_append, ih, rowMap_mlookup]
    simp only [ordFor]
    rw [lastIdx_append]
    cases h : lastIdx (ordFor nodes rest) q with
    | some j =>
      simp only [Option.map_some]
      have : c + (tierNodes nodes i).length + j = c + ((tierNodes nodes i).length + j) := by
        omega
      simp [this]
    | none => rfl

theorem lastIdx_isSome_iff (ns : List Node) (q : String) :
    (lastIdx ns q).isSome = true ↔ ∃ n ∈ ns, n.id = q := by
  induction ns with
  | nil => simp [lastIdx]
  | cons n rest ih =>
    rw [lastIdx.eq_def]
    dsimp only
    cases h : lastIdx rest q with
    | some j =>
      obtain ⟨m, hm, hid⟩ := ih.mp (by simp [h])
      simp only [Option.isSome_some, true_iff]
      exact ⟨m, List.mem_cons.mpr (Or.inr hm), hid⟩
    | none =>
      by_cases hn : n.id = q
      · rw [if_pos hn]
        simp only [Option.isSome_some, true_iff]
        exact ⟨n, List.mem_cons.mpr (Or.inl rfl), hn⟩
      · rw [if_neg hn]
        simp only [Option.isSome_none, Bool.false_eq_true, false_iff, not_exists]
        rintro m ⟨hm, hid⟩
        rcases List.mem_cons.mp hm with rfl | hm
        · exact hn hid
        · have : (lastIdx rest q).isSome = true := ih.mpr ⟨m, hm, hid⟩
          rw [h] at this
          simp at this

theorem lastIdx_lt (ns : List Node) (q : String) (j : Nat) (h : lastIdx ns q = some j) :
    j < ns.length := by
  induction ns generalizing j with
  | nil => simp [lastIdx] at h
  | cons n rest ih =>
    rw [lastIdx.eq_def] at h
    dsimp only at h
    cases hr : lastIdx rest q with
    | some k =>
      rw [hr] at h
      simp only [Option.some.injEq] at h
      have := ih k hr
      simp only [List.length_cons]
      omega
    | none =>
      rw [hr] at h
      by_cases hn : n.id = q
      · rw [if_pos hn] at h
        simp only [Option.some.injEq] at h
        simp only [List.length_cons]
        omega
      · rw [if_neg hn] at h
        simp at h

theorem ordFor_length (nodes : List Node) (tl : List Nat) :
    (ordFor nodes tl).length = totalFor nodes tl := by
  induction tl with
  | nil => simp [ordFor, totalFor]
  | cons i rest ih => simp [ordFor, totalFor, ih]

theorem mem_ordFor (nodes : List Node) (n : Node) :
    n ∈ ordFor nodes [0, 1, 2, 3, 4] ↔ n ∈ nodes := by
  simp only [ordFor, tierNodes, List.mem_append, List.mem_filter,
    List.not_mem_nil, or_false, decide_eq_true_eq]
  constructor
  · rintro (⟨hn, _⟩ | ⟨hn, _⟩ | ⟨hn, _⟩ | ⟨hn, _⟩ | ⟨hn, _⟩) <;> exact hn
  · intro hn
    have h5 := tierOf_lt n
    have hc : tierOf n = 0 ∨ tierOf n = 1 ∨ tierOf n = 2 ∨ tierOf n = 3 ∨ tierOf n = 4 := by
      omega
    rcases hc with h | h | h | h | h
    · exact Or.inl ⟨hn, h⟩
    · exact Or.inr (Or.inl ⟨hn, h⟩)
    · exact Or.inr (Or.inr (Or.inl ⟨hn, h⟩))
    · exact Or.inr (Or.inr (Or.inr (Or.inl ⟨hn, h⟩)))
    · exact Or.inr (Or.inr (Or.inr (Or.inr ⟨hn, h⟩)))

theorem finalMap_mlookup (data : Data) (q : String) :
    mlookup (finalMap data) q = (lastIdx (placementOrder data) q).map (fun j => 2 + j) := by
  unfold finalMap placementOrder
  exact mapFor_mlookup _ _ 2 q

theorem finalMap_value (data : Data) (q : String) (v : Nat)
    (h : mlookup (finalMap data) q = some v) :
    2 ≤ v ∧ v < 2 + nodeCount data := by
  rw [finalMap_mlookup] at h
  cases hj : lastIdx (placementOrder data) q with
  | none => rw [hj] at h; simp at h
  | some j =>
    rw [hj] at h
    simp only [Option.map_some', Option.some.injEq] at h
    subst h
    have hlt := lastIdx_lt _ _ _ hj
    have hlen : (placementOrder data).length = nodeCount data := by
      unfold placementOrder nodeCount
      exact ordFor_length _ _
    constructor <;> omega

/-- Whether both endpoints of an edge name the id of some input node. -/
def endpointsPresent (data : Data) (e : Edge) : Bool :=
  (theNodes data).any (fun n => n.id = e.source) &&
    (theNodes data).any (fun n => n.id = e.target)

theorem mlookup_finalMap_isSome (data : Data) (q : String) :
    (mlookup (finalMap data) q).isSome = (theNodes data).any (fun n => n.id = q) := by
  rw [Bool.eq_iff_iff, finalMap_mlookup]
  have hmap : (Option.map (fun j => 2 + j) (lastIdx (placementOrder data) q)).isSome
      = (lastIdx (placementOrder data) q).isSome := by
    cases lastIdx (placementOrder data) q <;> rfl
  rw [hmap, lastIdx_isSome_iff]
  simp only [List.any_eq_true, decide_eq_true_eq]
  constructor
  · rintro ⟨m, hm, hid⟩
    exact ⟨m, (mem_ordFor _ m).mp hm, hid⟩
  · rintro ⟨m, hm, hid⟩
    exact ⟨m, (mem_ordFor _ m).mpr hm, hid⟩

/-! ## Facts about the emitted connectors -/

/-- Whether the edge loop emits a connector for `e` under map `m`: both
lookups succeed and both values are truthy. -/
def resolves (m : List (String × Nat)) (e : Edge) : Bool :=
  match mlookup m e.source, mlookup m e.target with
  | some s, some t => decide (s ≠ 0 ∧ t ≠ 0)
  | _, _ => false

theorem resolves_iff (m : List (String × Nat)) (e : Edge) :
    resolves m e = true ↔
      ∃ s t, mlookup m e.source = some s ∧ mlookup m e.target = some t ∧
        s ≠ 0 ∧ t ≠ 0 := by
  unfold resolves
  cases hs : mlookup m e.source <;> cases ht : mlookup m e.target <;> simp [hs, ht]

theorem edgeCellsF_cons (m : List (String × Nat)) (e : Edge) (rest : List Edge) (c : Nat) :
    edgeCellsF m (e :: rest) c =
      if resolves m e then
        Cell.connector c (e.label.getD "")
            ((mlookup m e.source).getD 0) ((mlookup m e.target).getD 0) ::
          edgeCellsF m rest (c + 1)
      else edgeCellsF m rest c := by
  rw [edgeCellsF.eq_def]
  dsimp only
  cases hs : mlookup m e.source with
  | none => simp [resolves, hs]
  | some s =>
    cases ht : mlookup m e.target with
    | none => simp [resolves, hs, ht]
    | some t =>
      dsimp only
      by_cases hz : s ≠ 0 ∧ t ≠ 0
      · rw [if_pos hz]
        have hr : resolves m e = true := (resolves_iff m e).mpr ⟨s, t, hs, ht, hz.1, hz.2⟩
        rw [if_pos hr]
        rfl
      · rw [if_neg hz]
        have hr : ¬resolves m e = true := by
          rw [resolves_iff m e]
          rintro ⟨s', t', hs', ht', hs0, ht0⟩
          rw [hs] at hs'
          rw [ht] at ht'
          simp only [Option.some.injEq] at hs' ht'
          exact hz ⟨hs' ▸ hs0, ht' ▸ ht0⟩
        rw [if_neg hr]

theorem edgeCellsF_connectors (m : List (String × Nat)) (es : List Edge) (c : Nat) :
    ∀ cell ∈ edgeCellsF m es c, cell.isConnector = true := by
  induction es generalizing c with
  | nil => simp [edgeCellsF]
  | cons e rest ih =>
    rw [edgeCellsF_cons]
    by_cases hr : resolves m e
    · rw [if_pos hr]
      intro cell hc
      rcases List.mem_cons.mp hc with rfl | hc
      · rfl
      · exact ih _ cell hc
    · rw [if_neg hr]
      exact ih c

theorem edgeCellsF_length (m : List (String × Nat)) (es : List Edge) (c : Nat) :
    (edgeCellsF m es c).length = (es.filter (resolves m)).length := by
  induction es generalizing c with
  | nil => simp [edgeCellsF]
  | cons e rest ih =>
    rw [edgeCellsF_cons, List.filter_cons]
    by_cases hr : resolves m e
    · simp [hr, ih]
    · simp [hr, ih]

theorem edgeCellsF_ids (m : List (String × Nat)) (es : List Edge) (c : Nat) :
    (edgeCellsF m es c).map Cell.docId = List.range' c (edgeCellsF m es c).length := by
  induction es generalizing c with
  | nil => simp [edgeCellsF]
  | cons e rest ih =>
    rw [edgeCellsF_cons]
    by_cases hr : resolves m e
    · rw [if_pos hr]
      simp [Cell.docId, ih, List.range'_succ]
    · rw [if_neg hr]
      exact ih c

theorem edgeCellsF_values (m : List (String × Nat)) (es : List Edge) (c : Nat) :
    (edgeCellsF m es c).map Cell.connValue
      = (es.filter (resolves m)).map (fun e => e.label.getD "") := by
  induction es generalizing c with
  | nil => simp [edgeCellsF]
  | cons e rest ih =>
    rw [edgeCellsF_cons, List.filter_cons]
    by_cases hr : resolves m e
    · simp [hr, Cell.connValue, ih]
    · simp [hr, ih]

theorem edgeCellsF_mem (m : List (String × Nat)) (es : List Edge) (c : Nat) :
    ∀ cell ∈ edgeCellsF m es c,
      ∃ e ∈ es, ∃ cid s t, mlookup m e.source = some s ∧ mlookup m e.target = some t ∧
        cell = Cell.connector cid (e.label.getD "") s t := by
  induction es generalizing c with
  | nil => simp [edgeCellsF]
  | cons e rest ih =>
    rw [edgeCellsF_cons]
    by_cases hr : resolves m e
    · rw [if_pos hr]
      intro cell hc
      rcases List.mem_cons.mp hc with rfl | hc
      · obtain ⟨s, t, hs, ht, _, _⟩ := (resolves_iff m e).mp hr
        refine ⟨e, List.mem_cons.mpr (Or.inl rfl), c, s, t, hs, ht, ?_⟩
        rw [hs, ht]
        rfl
      · obtain ⟨e', he', hrest⟩ := ih _ cell hc
        exact ⟨e', List.mem_cons.mpr (Or.inr he'), hrest⟩
    · rw [if_neg hr]
      intro cell hc
      obtain ⟨e', he', hrest⟩ := ih c cell hc
      exact ⟨e', List.mem_cons.mpr (Or.inr he'), hrest⟩

theorem edgeCellsF_exists (m : List (String × Nat)) (es : List Edge) (c : Nat)
    (e : Edge) (he : e ∈ es) (s t : Nat)
    (hs : mlookup m e.source = some s) (ht : mlookup m e.target = some t)
    (hs0 : s ≠ 0) (ht0 : t ≠ 0) :
    ∃ cid, Cell.connector cid (e.label.getD "") s t ∈ edgeCellsF m es c := by
  induction es generalizing c with
  | nil => simp at he
  | cons e' rest ih =>
    rw [edgeCellsF_cons]
    rcases List.mem_cons.mp he with rfl | he
    · have hr : resolves m e = true := (resolves_iff m e).mpr ⟨s, t, hs, ht, hs0, ht0⟩
      rw [if_pos hr]
      refine ⟨c, ?_⟩
      rw [hs, ht]
      exact List.mem_cons.mpr (Or.inl rfl)
    · by_cases hr : resolves m e'
      · rw [if_pos hr]
        obtain ⟨cid, hcid⟩ := ih (c + 1) he
        exact ⟨cid, List.mem_cons.mpr (Or.inr hcid)⟩
      · rw [if_neg hr]
        exact ih c he

theorem edgeCellsF_nil_map (es : List Edge) (c : Nat) : edgeCellsF [] es c = [] := by
  induction es generalizing c with
  | nil => rfl
  | cons e rest ih =>
    rw [edgeCellsF_cons]
    have : resolves [] e = false := rfl
    rw [this]
    simp [ih]

theorem resolves_finalMap (data : Data) (e : Edge) :
    resolves (finalMap data) e = endpointsPresent data e := by
  rw [Bool.eq_iff_iff, resolves_iff]
  unfold endpointsPresent
  rw [Bool.and_eq_true, ← mlookup_finalMap_isSome, ← mlookup_finalMap_isSome]
  constructor
  · rintro ⟨s, t, hs, ht, _, _⟩
    constructor <;> simp [hs, ht]
  · rintro ⟨h1, h2⟩
    obtain ⟨s, hs⟩ := Option.isSome_iff_exists.mp h1
    obtain ⟨t, ht⟩ := Option.isSome_iff_exists.mp h2
    have b1 := finalMap_value data e.source s hs
    have b2 := finalMap_value data e.target t ht
    exact ⟨s, t, hs, ht, by omega, by omega⟩

/-! ## Decomposition of the full document -/

theorem not_shape_of_connector (cell : Cell) (h : cell.isConnector = true) :
    cell.isShape = false := by
  cases cell <;> simp_all [Cell.isConnector, Cell.isShape]

theorem not_connector_of_shape (cell : Cell) (h : cell.isShape = true) :
    cell.isConnector = false := by
  cases cell <;> simp_all [Cell.isConnector, Cell.isShape]

theorem generateCells_some (data : Data) (cs : List Cell) (c : Nat)
    (h : generateCells data = some (cs, c)) :
    labelsOk (theNodes data) = true ∧ cs = closedCells data
      ∧ c = 2 + nodeCount data + (econns data).length := by
  rw [generateCells_eq] at h
  by_cases hl : labelsOk (theNodes data)
  · rw [if_pos hl] at h
    simp only [Option.some.injEq, Prod.mk.injEq] at h
    exact ⟨hl, h.1.symm, h.2.symm⟩
  · rw [if_neg hl] at h
    simp at h

theorem filter_shape_closed (data : Data) :
    (closedCells data).filter Cell.isShape = finalRows data := by
  have h1 : (finalRows data).filter Cell.isShape = finalRows data :=
    List.filter_eq_self.mpr (by unfold finalRows; exact rowsFor_shapes _ _ _ _)
  have h2 : (econns data).filter Cell.isShape = [] := by
    refine List.filter_eq_nil_iff.mpr (fun cell hc => ?_)
    have hc2 : cell ∈ edgeCellsF (finalMap data) (theEdges data) (2 + nodeCount data) := hc
    have := edgeCellsF_connectors _ _ _ cell hc2
    simp [not_shape_of_connector cell this]
  unfold closedCells
  simp [List.filter_cons, List.filter_append, h1, h2, Cell.isShape]

theorem filter_conn_closed (data : Data) :
    (closedCells data).filter Cell.isConnector = econns data := by
  have h1 : (finalRows data).filter Cell.isConnector = [] := by
    refine List.filter_eq_nil_iff.mpr (fun cell hc => ?_)
    have hc2 : cell ∈ rowsFor (theNodes data) [0, 1, 2, 3, 4] 2 40 := hc
    have := rowsFor_shapes _ _ _ _ cell hc2
    simp [not_connector_of_shape cell this]
  have h2 : (econns data).filter Cell.isConnector = (econns data) := by
    refine List.filter_eq_self.mpr (fun cell hc => ?_)
    have hc2 : cell ∈ edgeCellsF (finalMap data) (theEdges data) (2 + nodeCount data) := hc
    exact edgeCellsF_connectors _ _ _ cell hc2
  unfold closedCells
  simp [List.filter_cons, List.filter_append, h1, h2, Cell.isConnector]

theorem finalRows_length (data : Data) :
    (finalRows data).length = nodeCount data := by
  unfold finalRows nodeCount
  exact rowsFor_length _ _ _ _

theorem nodeCount_eq (data : Data) : nodeCount data = (theNodes data).length := by
  unfold nodeCount
  exact totalFor_allTiers _

theorem closedCells_ids (data : Data) :
    (closedCells data).map Cell.docId = List.range' 0 (closedCells data).length := by
  have hrows := finalRows_length data
  have h1 : (finalRows data).map Cell.docId = List.range' 2 (nodeCount data) := by
    unfold finalRows nodeCount
    exact rowsFor_ids _ _ _ _
  have h2 : (econns data).map Cell.docId
      = List.range' (2 + nodeCount data) (econns data).length := by
    unfold econns
    exact edgeCellsF_ids _ _ _
  have hlen : (closedCells data).length = ((econns data).length + nodeCount data) + 2 := by
    unfold closedCells
    simp only [List.length_cons, List.length_append, hrows]
    omega
  rw [hlen, List.range'_succ, List.range'_succ]
  unfold closedCells
  simp only [List.map_cons, List.map_append, Cell.docId, h1, h2]
  rw [List.range'_append_1]

/-! ## Where each tier lands -/

/-- Counter values consumed by the tiers listed before the first occurrence
of `t`. -/
def offsetBefore (nodes : List Node) : List Nat → Nat → Nat
  | [], _ => 0
  | i :: rest, t =>
    if i = t then 0
    else (tierNodes nodes i).length + offsetBefore nodes rest t

/-- How many non-empty tiers are listed before the first occurrence of `t`
(each one advances `y_pos` by 140; empty tiers contribute nothing). -/
def nonemptyBefore (nodes : List Node) : List Nat → Nat → Nat
  | [], _ => 0
  | i :: rest, t =>
    if i = t then 0
    else (if (tierNodes nodes i).length = 0 then 0 else 1) + nonemptyBefore nodes rest t

theorem rowsFor_mem (nodes : List Node) (tl : List Nat) (c : Nat) (y : Int)
    (t : Nat) (ht : t ∈ tl) (j : Nat) (n : Node)
    (hj : (tierNodes nodes t)[j]? = some n) :
    Cell.shape (c + offsetBefore nodes tl t + j) (n.label.getD "")
        (rowStartX (tierNodes nodes t).length + j * 180)
        (y + 140 * (nonemptyBefore nodes tl t : Int)) 120 80
      ∈ rowsFor nodes tl c y := by
  induction tl generalizing c y with
  | nil => simp at ht
  | cons i rest ih =>
    by_cases hit : i = t
    · subst hit
      have hne : ¬(tierNodes nodes i).length = 0 := by
        intro h0
        rw [List.length_eq_zero.mp h0] at hj
        simp at hj
      rw [rowsFor.eq_def]
      dsimp only
      rw [if_neg hne]
      refine List.mem_append.mpr (Or.inl ?_)
      have hmem := rowCells_mem (tierNodes nodes i) c
        (rowStartX (tierNodes nodes i).length) y j n hj
      simpa [offsetBefore, nonemptyBefore] using hmem
    · have ht2 : t ∈ rest := by
        rcases List.mem_cons.mp ht with rfl | ht2
        · exact absurd rfl hit
        · exact ht2
      by_cases h0 : (tierNodes nodes i).length = 0
      · rw [rowsFor.eq_def]
        dsimp only
        rw [if_pos h0]
        have hmem := ih c y ht2
        simpa [offsetBefore, nonemptyBefore, hit, h0] using hmem
      · rw [rowsFor.eq_def]
        dsimp only
        rw [if_neg h0]
        refine List.mem_append.mpr (Or.inr ?_)
        have hmem := ih (c + (tierNodes nodes i).length) (y + 140) ht2
        simp only [offsetBefore, nonemptyBefore, if_neg hit, if_neg h0]
        have e1 : c + ((tierNodes nodes i).length + offsetBefore nodes rest t) + j
            = c + (tierNodes nodes i).length + offsetBefore nodes rest t + j := by
          omega
        have e2 : y + 140 * (((1 + nonemptyBefore nodes rest t : Nat)) : Int)
            = y + 140 + 140 * (nonemptyBefore nodes rest t : Int) := by
          push_cast
          ring
        rw [e1, e2]
        exact hmem

/-- The document identifier of the first shape of tier `t`. -/
def tierBase (data : Data) (t : Nat) : Nat :=
  2 + offsetBefore (theNodes data) [0, 1, 2, 3, 4] t

/-- The row ordinate of tier `t`: the top margin 40 plus 140 for every
non-empty tier above it. -/
def tierY (data : Data) (t : Nat) : Int :=
  40 + 140 * (nonemptyBefore (theNodes data) [0, 1, 2, 3, 4] t : Int)

theorem shape_mem_of_generate (data : Data) (cs : List Cell) (c : Nat)
    (h : generateCells data = some (cs, c)) (t : Nat) (ht : t < 5) (j : Nat) (n : Node)
    (hj : (tierNodes (theNodes data) t)[j]? = some n) :
    Cell.shape (tierBase data t + j) (n.label.getD "")
        (rowStartX (tierNodes (theNodes data) t).length + j * 180) (tierY data t) 120 80
      ∈ cs := by
  obtain ⟨hl, hcs, _⟩ := generateCells_some data cs c h
  subst hcs
  have htl : t ∈ [0, 1, 2, 3, 4] := by
    simp only [List.mem_cons, List.not_mem_nil, or_false]
    omega
  have hmem := rowsFor_mem (theNodes data) [0, 1, 2, 3, 4] 2 40 t htl j n hj
  have hmem2 : Cell.shape (tierBase data t + j) (n.label.getD "")
      (rowStartX (tierNodes (theNodes data) t).length + j * 180) (tierY data t) 120 80
      ∈ finalRows data := hmem
  unfold closedCells
  exact List.mem_cons.mpr (Or.inr (List.mem_cons.mpr (Or.inr
    (List.mem_append.mpr (Or.inl hmem2)))))

/-- The length of the connector list equals the number of edges whose both
endpoint ids name input nodes. -/
theorem econns_length (data : Data) :
    (econns data).length = ((theEdges data).filter (endpointsPresent data)).length := by
  unfold econns
  rw [edgeCellsF_length]
  congr 1
  exact List.filter_congr (fun e _ => resolves_finalMap data e)

/-- The connector values are the (defaulted) labels of the resolved edges. -/
theorem econns_values (data : Data) :
    (econns data).map Cell.connValue
      = ((theEdges data).filter (endpointsPresent data)).map (fun e => e.label.getD "") := by
  unfold econns
  rw [edgeCellsF_values]
  congr 1
  exact List.filter_congr (fun e _ => resolves_finalMap data e)

theorem closedCells_length (data : Data) :
    (closedCells data).length = 2 + nodeCount data + (econns data).length := by
  unfold closedCells
  simp only [List.length_cons, List.length_append, finalRows_length]
  omega

/-- A connector among the generated cells comes from the edge loop. -/
theorem connector_mem_closed (data : Data) (cid : Nat) (v : String) (s t : Nat)
    (h : Cell.connector cid v s t ∈ closedCells data) :
    Cell.connector cid v s t ∈ econns data := by
  unfold closedCells at h
  rcases List.mem_cons.mp h with h | h
  · exact absurd h (by simp)
  rcases List.mem_cons.mp h with h | h
  · exact absurd h (by simp)
  rcases List.mem_append.mp h with h | h
  · have h2 : Cell.connector cid v s t ∈ rowsFor (theNodes data) [0, 1, 2, 3, 4] 2 40 := h
    have := rowsFor_shapes _ _ _ _ _ h2
    simp [Cell.isShape] at this
  · exact h

theorem shapeIds_closed (data : Data) :
    shapeIds (closedCells data) = List.range' 2 (nodeCount data) := by
  unfold shapeIds
  rw [filter_shape_closed]
  unfold finalRows nodeCount
  exact rowsFor_ids _ _ _ _

/-! ## Concrete inputs used as witnesses -/

/-- The spec scenario: a `user` node, a load-balancer node, one edge u→lb
(labels chosen since the output schema requires them on nodes). -/
def uLbData : Data :=
  ⟨some [⟨"u", some "u", "user"⟩,
         ⟨"lb", some "lb", "aws.network.elb_application_load_balancer"⟩],
   some [⟨"u", "lb", none⟩]⟩

/-- The cells the scenario produces. -/
def uLbCells : List Cell :=
  [Cell.root0, Cell.canvas, Cell.shape 2 "u" 510 40 120 80,
   Cell.shape 3 "lb" 510 180 120 80, Cell.connector 4 "" 2 3]

/-- One node, a resolved self-loop edge and a dangling edge. -/
def loopGhostData : Data :=
  ⟨some [⟨"u", some "U", "user"⟩],
   some [⟨"u", "u", some "loop"⟩, ⟨"u", "ghost", none⟩]⟩

/-- The cells `loopGhostData` produces: the dangling edge is dropped. -/
def lgCells : List Cell :=
  [Cell.root0, Cell.canvas, Cell.shape 2 "U" 510 40 120 80,
   Cell.connector 3 "loop" 2 2]

/-- Two nodes sharing the id `"x"`, and an edge referencing it. -/
def dupData : Data :=
  ⟨some [⟨"x", some "X1", "user"⟩, ⟨"x", some "X2", "user"⟩],
   some [⟨"x", "x", none⟩]⟩

/-- The cells `dupData` produces: both shapes, one connector on the last. -/
def dupCells : List Cell :=
  [Cell.root0, Cell.canvas, Cell.shape 2 "X1" 420 40 120 80,
   Cell.shape 3 "X2" 600 40 120 80, Cell.connector 4 "" 3 3]

/-! ## The claims -/

/-- C1: every connector element emitted by `generate_xml_string` has source
and target equal to the document identifier of some shape element of the
same document, and an edge whose endpoint does not resolve through the
node-id map produces no connector (exactly the resolvable edges are
emitted, never dangling). -/
theorem C1_connectors_never_dangle (data : Data) (cs : List Cell) (c : Nat)
    (h : generateCells data = some (cs, c)) :
    (∀ cid v s t, Cell.connector cid v s t ∈ cs →
        s ∈ shapeIds cs ∧ t ∈ shapeIds cs)
    ∧ (cs.filter Cell.isConnector).length
        = ((theEdges data).filter (endpointsPresent data)).length := by
  obtain ⟨hl, hcs, _⟩ := generateCells_some data cs c h
  subst hcs
  constructor
  · intro cid v s t hmem
    have hec := connector_mem_closed data cid v s t hmem
    have hec2 : Cell.connector cid v s t
        ∈ edgeCellsF (finalMap data) (theEdges data) (2 + nodeCount data) := hec
    obtain ⟨e, he, cid', s', t', hs, ht, heq⟩ := edgeCellsF_mem _ _ _ _ hec2
    simp only [Cell.connector.injEq] at heq
    obtain ⟨_, _, h3, h4⟩ := heq
    subst h3
    subst h4
    have hb1 := finalMap_value data e.source s hs
    have hb2 := finalMap_value data e.target t ht
    rw [shapeIds_closed]
    constructor <;> (rw [List.mem_range'_1]; omega)
  · rw [filter_conn_closed]
    exact econns_length data

/-- Witness for C1: the graph with one node, one self-loop edge and one
dangling edge; the self-loop connector references shape id 2 and only one
connector is emitted. -/
theorem C1_witness :
    (2 ∈ shapeIds lgCells ∧ 2 ∈ shapeIds lgCells)
    ∧ (lgCells.filter Cell.isConnector).length
        = ((theEdges loopGhostData).filter (endpointsPresent loopGhostData)).length := by
  have h := C1_connectors_never_dangle loopGhostData lgCells 4 (by rfl)
  exact ⟨h.1 3 "loop" 2 2 (by decide), h.2⟩

/-- C2: calling `generate_xml_string` twice on the same instance with the
same input yields byte-identical text: the counter is reset on entry, so the
instance state a previous run left behind cannot influence the output. -/
theorem C2_two_run_determinism (c0 : Nat) (data : Data) (out : String) (c1 : Nat)
    (h : generate_xml_string c0 data = some (out, c1)) :
    generate_xml_string c1 data = some (out, c1) := h

/-- Witness for C2: run on the empty input from counter 7, rerun from the
counter it left (2). -/
theorem C2_witness :
    generate_xml_string 2 ⟨none, none⟩
      = some (serializeDocument [Cell.root0, Cell.canvas], 2) :=
  C2_two_run_determinism 7 ⟨none, none⟩
    (serializeDocument [Cell.root0, Cell.canvas]) 2 (by rfl)

/-- C3: the number of emitted shape elements equals the number of input
nodes, and a node whose type string is absent from the tier table gets the
default tier 3 (it is never dropped). -/
theorem C3_shape_count (data : Data) (cs : List Cell) (c : Nat)
    (h : generateCells data = some (cs, c)) :
    (cs.filter Cell.isShape).length = (theNodes data).length
    ∧ ∀ n : Node, tiers n.type = none → tierOf n = 3 := by
  obtain ⟨hl, hcs, _⟩ := generateCells_some data cs c h
  subst hcs
  constructor
  · rw [filter_shape_closed, finalRows_length, nodeCount_eq]
  · intro n hn
    unfold tierOf
    rw [hn]
    rfl

/-- Witness for C3 at the two-node scenario, plus an unmapped type string. -/
theorem C3_witness :
    (uLbCells.filter Cell.isShape).length = (theNodes uLbData).length
    ∧ tierOf ⟨"z", some "Z", "weird"⟩ = 3 := by
  have h := C3_shape_count uLbData uLbCells 5 (by rfl)
  exact ⟨h.1, h.2 ⟨"z", some "Z", "weird"⟩ (by rfl)⟩

/-- C4: the number of connector elements is at most the number of input
edges, with equality exactly when every edge's source and target are ids of
input nodes. -/
theorem C4_connector_count (data : Data) (cs : List Cell) (c : Nat)
    (h : generateCells data = some (cs, c)) :
    (cs.filter Cell.isConnector).length ≤ (theEdges data).length
    ∧ ((cs.filter Cell.isConnector).length = (theEdges data).length
        ↔ ∀ e ∈ theEdges data, endpointsPresent data e = true) := by
  obtain ⟨hl, hcs, _⟩ := generateCells_some data cs c h
  subst hcs
  rw [filter_conn_closed, econns_length]
  refine ⟨List.length_filter_le _ _, ?_⟩
  rw [List.filter_length_eq_length]

/-- Witness for C4: with one resolvable and one dangling edge only one
connector appears, strictly fewer than the two input edges. -/
theorem C4_witness :
    (lgCells.filter Cell.isConnector).length ≤ (theEdges loopGhostData).length
    ∧ ((lgCells.filter Cell.isConnector).length = (theEdges loopGhostData).length
        ↔ ∀ e ∈ theEdges loopGhostData, endpointsPresent loopGhostData e = true) :=
  C4_connector_count loopGhostData lgCells 4 (by rfl)

/-- C5 counterexample: the claim says a NODE with an absent optional label
does not make the pipeline fail and the element is still emitted; in the
code `node['label']` raises `KeyError` (modelled as `none`), so generation
produces no document at all for such an input. -/
theorem C5_counterexample :
    generate_xml_string 2 ⟨some [⟨"a", none, "user"⟩], some []⟩ = none := rfl

/-- C5 (amended): only the EDGE label is optional. If every node carries a
label, generation never fails, whatever the edges are; an edge with an
absent label still produces its connector, whose value is the empty string
(each resolved edge contributes `edge.get('label', '')`). A node with an
absent label is a hard failure. -/
theorem C5_edge_label_optional (ns : List Node) (es : List Edge)
    (h : ∀ n ∈ ns, n.label.isSome = true) :
    (generateCells ⟨some ns, some es⟩).isSome = true
    ∧ ∀ cs c, generateCells ⟨some ns, some es⟩ = some (cs, c) →
        (cs.filter Cell.isConnector).map Cell.connValue
          = (es.filter (endpointsPresent ⟨some ns, some es⟩)).map
              (fun e => e.label.getD "") := by
  have hl : labelsOk (theNodes ⟨some ns, some es⟩) = true := by
    show labelsOk ns = true
    unfold labelsOk
    exact List.all_eq_true.mpr h
  constructor
  · rw [generateCells_eq, if_pos hl]
    rfl
  · intro cs c hcs
    obtain ⟨_, hcseq, _⟩ := generateCells_some _ cs c hcs
    subst hcseq
    rw [filter_conn_closed]
    exact econns_values ⟨some ns, some es⟩

/-- Witness for C5 at a graph whose single edge has no label: generation
succeeds and the connector carries the empty string. -/
theorem C5_witness :
    (generateCells ⟨some [⟨"u", some "U", "user"⟩], some [⟨"u", "u", none⟩]⟩).isSome = true
    ∧ ([Cell.root0, Cell.canvas, Cell.shape 2 "U" 510 40 120 80,
        Cell.connector 3 "" 2 2].filter Cell.isConnector).map Cell.connValue
      = (([⟨"u", "u", none⟩] : List Edge).filter
          (endpointsPresent ⟨some [⟨"u", some "U", "user"⟩], some [⟨"u", "u", none⟩]⟩)).map
          (fun e => e.label.getD "") := by
  have h := C5_edge_label_optional [⟨"u", some "U", "user"⟩] [⟨"u", "u", none⟩] (by decide)
  exact ⟨h.1, h.2 _ 4 (by rfl)⟩

/-- C6: in tier `t` with `k` nodes the `j`-th node (0-indexed, input order)
renders as a shape whose x is `rowStartX k + j*180` with
`rowStartX k = 600 - (k*180)/2`, 120 wide and 80 high, on that tier's row. -/
theorem C6_tier_row_geometry (data : Data) (cs : List Cell) (c : Nat)
    (h : generateCells data = some (cs, c)) (t : Nat) (ht : t < 5) (j : Nat) (n : Node)
    (hj : (tierNodes (theNodes data) t)[j]? = some n) :
    Cell.shape (tierBase data t + j) (n.label.getD "")
        (rowStartX (tierNodes (theNodes data) t).length + j * 180) (tierY data t) 120 80
      ∈ cs :=
  shape_mem_of_generate data cs c h t ht j n hj

/-- Witness for C6: in the duplicate-id graph tier 0 holds two nodes, the
first at x = 600 - (2*180)/2 = 420. -/
theorem C6_witness : Cell.shape 2 "X1" 420 40 120 80 ∈ dupCells := by
  have h := C6_tier_row_geometry dupData dupCells 5 (by rfl) 0 (by omega) 0
    ⟨"x", some "X1", "user"⟩ (by rfl)
  exact h

/-- C7: the row ordinate of tier `t` is the top margin 40 plus 140 per
preceding NON-EMPTY tier — an empty tier consumes neither a document
identifier (see `offsetBefore`) nor vertical space — and the u→lb scenario
yields exactly the two shapes (u at y=40, lb at y=180, the empty tier 1
adding no gap) and one connector. -/
theorem C7_row_y_advancement (data : Data) (cs : List Cell) (c : Nat)
    (h : generateCells data = some (cs, c)) (t : Nat) (ht : t < 5) (j : Nat) (n : Node)
    (hj : (tierNodes (theNodes data) t)[j]? = some n) :
    Cell.shape (2 + offsetBefore (theNodes data) [0, 1, 2, 3, 4] t + j) (n.label.getD "")
        (rowStartX (tierNodes (theNodes data) t).length + j * 180)
        (40 + 140 * (nonemptyBefore (theNodes data) [0, 1, 2, 3, 4] t : Int)) 120 80
      ∈ cs
    ∧ generateCells uLbData = some (uLbCells, 5) :=
  ⟨shape_mem_of_generate data cs c h t ht j n hj, rfl⟩

/-- Witness for C7 at the scenario itself: the lb shape sits at y = 180
because only tier 0 is non-empty above tier 2. -/
theorem C7_witness :
    Cell.shape 3 "lb" 510 180 120 80 ∈ uLbCells
    ∧ generateCells uLbData = some (uLbCells, 5) := by
  have h := C7_row_y_advancement uLbData uLbCells 5 (by rfl) 2 (by omega) 0
    ⟨"lb", some "lb", "aws.network.elb_application_load_balancer"⟩ (by rfl)
  exact h

/-- C8: document identifiers come from one counter shared across shapes and
connectors, starting at 2 past the reserved structural identifiers 0 and 1,
strictly increasing with each allocation: the whole document's ids are the
consecutive run from 0, the shape/connector ids the run from 2, all
distinct; the counter ends just past the last allocation. -/
theorem C8_doc_ids (data : Data) (cs : List Cell) (c : Nat)
    (h : generateCells data = some (cs, c)) :
    cs.map Cell.docId = List.range' 0 cs.length
    ∧ (cs.map Cell.docId).Nodup
    ∧ (cs.filter (fun cell => cell.isShape || cell.isConnector)).map Cell.docId
        = List.range' 2 (cs.length - 2)
    ∧ c = cs.length := by
  obtain ⟨hl, hcs, hcnt⟩ := generateCells_some data cs c h
  subst hcs
  have hfilter : (closedCells data).filter (fun cell => cell.isShape || cell.isConnector)
      = finalRows data ++ econns data := by
    have h1 : (finalRows data).filter (fun cell => cell.isShape || cell.isConnector)
        = finalRows data :=
      List.filter_eq_self.mpr (fun cell hc => by
        have h2 : cell ∈ rowsFor (theNodes data) [0, 1, 2, 3, 4] 2 40 := hc
        have := rowsFor_shapes _ _ _ _ cell h2
        simp [this])
    have h2 : (econns data).filter (fun cell => cell.isShape || cell.isConnector)
        = econns data :=
      List.filter_eq_self.mpr (fun cell hc => by
        have hc2 : cell ∈ edgeCellsF (finalMap data) (theEdges data)
            (2 + nodeCount data) := hc
        have := edgeCellsF_connectors _ _ _ cell hc2
        simp [this])
    have hhead : (closedCells data).filter (fun cell => cell.isShape || cell.isConnector)
        = (finalRows data ++ econns data).filter
            (fun cell => cell.isShape || cell.isConnector) := rfl
    rw [hhead, List.filter_append, h1, h2]
  have hids1 : (finalRows data).map Cell.docId = List.range' 2 (nodeCount data) := by
    unfold finalRows nodeCount
    exact rowsFor_ids _ _ _ _
  have hids2 : (econns data).map Cell.docId
      = List.range' (2 + nodeCount data) (econns data).length := by
    unfold econns
    exact edgeCellsF_ids _ _ _
  have hlen := closedCells_length data
  refine ⟨closedCells_ids data, ?_, ?_, ?_⟩
  · rw [closedCells_ids]
    exact List.nodup_range' _ _
  · rw [hfilter, List.map_append, hids1, hids2, List.range'_append_1]
    congr 1
    omega
  · omega

/-- Witness for C8 at the scenario: ids 0,1,2,3,4 in order, no duplicates,
counter left at 5. -/
theorem C8_witness :
    uLbCells.map Cell.docId = List.range' 0 uLbCells.length
    ∧ (uLbCells.map Cell.docId).Nodup := by
  have h := C8_doc_ids uLbData uLbCells 5 (by rfl)
  exact ⟨h.1, h.2.1⟩

/-- C9: a missing `nodes` or `edges` key is treated as the empty collection
and never fails: with no nodes the document is exactly the two reserved
cells; with no edges nothing but shapes (one per node) is emitted. -/
theorem C9_missing_keys (es : Option (List Edge)) (ns : List Node)
    (h : ∀ n ∈ ns, n.label.isSome = true) :
    generateCells ⟨none, es⟩ = some ([Cell.root0, Cell.canvas], 2)
    ∧ (generateCells ⟨some ns, none⟩).isSome = true
    ∧ ∀ cs c, generateCells ⟨some ns, none⟩ = some (cs, c) →
        cs.filter Cell.isConnector = []
        ∧ (cs.filter Cell.isShape).length = ns.length
        ∧ Cell.root0 ∈ cs ∧ Cell.canvas ∈ cs := by
  have hl : labelsOk (theNodes ⟨some ns, none⟩) = true := by
    show labelsOk ns = true
    unfold labelsOk
    exact List.all_eq_true.mpr h
  refine ⟨?_, ?_, ?_⟩
  · rw [generateCells_eq]
    rw [if_pos (show labelsOk (theNodes ⟨none, es⟩) = true from rfl)]
    have hm : finalMap ⟨none, es⟩ = ([] : List (String × Nat)) := rfl
    have hr : finalRows ⟨none, es⟩ = ([] : List Cell) := rfl
    unfold closedCells econns
    rw [hm, edgeCellsF_nil_map, hr]
    rfl
  · rw [generateCells_eq, if_pos hl]
    rfl
  · intro cs c hcs
    obtain ⟨_, hcseq, _⟩ := generateCells_some _ cs c hcs
    subst hcseq
    have hec : econns ⟨some ns, none⟩ = [] := rfl
    refine ⟨?_, ?_, ?_, ?_⟩
    · rw [filter_conn_closed, hec]
    · rw [filter_shape_closed, finalRows_length, nodeCount_eq]
      rfl
    · exact List.mem_cons.mpr (Or.inl rfl)
    · exact List.mem_cons.mpr (Or.inr (List.mem_cons.mpr (Or.inl rfl)))

/-- Witness for C9: a present edge list with an absent nodes key, and a
one-node graph with an absent edges key. -/
theorem C9_witness :
    generateCells ⟨none, some [⟨"u", "lb", none⟩]⟩ = some ([Cell.root0, Cell.canvas], 2)
    ∧ (generateCells ⟨some [⟨"u", some "U", "user"⟩], none⟩).isSome = true
    ∧ ([Cell.root0, Cell.canvas, Cell.shape 2 "U" 510 40 120 80].filter
          Cell.isConnector = []
        ∧ ([Cell.root0, Cell.canvas,
            Cell.shape 2 "U" 510 40 120 80].filter Cell.isShape).length = 1
        ∧ Cell.root0 ∈ [Cell.root0, Cell.canvas, Cell.shape 2 "U" 510 40 120 80]
        ∧ Cell.canvas ∈ [Cell.root0, Cell.canvas, Cell.shape 2 "U" 510 40 120 80]) := by
  have h := C9_missing_keys (some [⟨"u", "lb", none⟩]) [⟨"u", some "U", "user"⟩] (by decide)
  exact ⟨h.1, h.2.1, h.2.2 _ 3 (by rfl)⟩

/-- C10: with duplicated node ids every node still renders as its own shape
with a distinct identifier, but the node-id map keeps only the most recently
placed node per id (`lastIdx` over the placement order), so every connector
for such an id attaches to the last node with that id in layout order. -/
theorem C10_duplicate_ids_last_wins (data : Data) (cs : List Cell) (c : Nat)
    (h : generateCells data = some (cs, c)) :
    (cs.filter Cell.isShape).length = (theNodes data).length
    ∧ (cs.map Cell.docId).Nodup
    ∧ (∀ q, mlookup (finalMap data) q
          = (lastIdx (placementOrder data) q).map (fun j => 2 + j))
    ∧ ∀ e ∈ theEdges data, ∀ js jt,
        lastIdx (placementOrder data) e.source = some js →
        lastIdx (placementOrder data) e.target = some jt →
        ∃ cid, Cell.connector cid (e.label.getD "") (2 + js) (2 + jt) ∈ cs := by
  obtain ⟨hl, hcs, _⟩ := generateCells_some data cs c h
  subst hcs
  refine ⟨?_, ?_, ?_, ?_⟩
  · rw [filter_shape_closed, finalRows_length, nodeCount_eq]
  · rw [closedCells_ids]
    exact List.nodup_range' _ _
  · exact finalMap_mlookup data
  · intro e he js jt hjs hjt
    have hs : mlookup (finalMap data) e.source = some (2 + js) := by
      rw [finalMap_mlookup, hjs]
      rfl
    have ht : mlookup (finalMap data) e.target = some (2 + jt) := by
      rw [finalMap_mlookup, hjt]
      rfl
    obtain ⟨cid, hcid⟩ := edgeCellsF_exists (finalMap data) (theEdges data)
      (2 + nodeCount data) e he (2 + js) (2 + jt) hs ht (by omega) (by omega)
    refine ⟨cid, ?_⟩
    unfold closedCells
    exact List.mem_cons.mpr (Or.inr (List.mem_cons.mpr (Or.inr
      (List.mem_append.mpr (Or.inr hcid)))))

/-- Witness for C10 at the duplicate-id graph: two shapes are emitted and
the map sends `"x"` to 3, the identifier of the LAST `"x"` node placed. -/
theorem C10_witness :
    (dupCells.filter Cell.isShape).length = 2
    ∧ mlookup (finalMap dupData) "x" = some 3 := by
  have h := C10_duplicate_ids_last_wins dupData dupCells 5 (by rfl)
  refine ⟨h.1, ?_⟩
  rw [h.2.2.1 "x"]
  rfl
